import Mathlib

/-!
Verification of the aiora mention-processing pipeline.

Shallow embedding of:
* the serialized outbound request queue
  (src/packages/client-truth-social/src/utils.ts, class RequestQueue);
* the recursive conversation-thread reconstructor
  (src/packages/client-truth-social/src/utils.ts, buildConversationThread);
* the mention poll loop, the two-stage generation orchestrator and the
  read-merge-write status synchronizer
  (src/packages/core/src/mentions-processor.ts, class MentionProcessor).

External collaborators (the HTTP status endpoint, the text-generation
service, the memory store, the post source) are passed in as environment
records of functions; each asynchronous call that can reject is modelled
with Except.  JavaScript runtime behaviour that matters to the claims is
modelled explicitly: objects merged from a null cache may miss fields
(hence Option-typed fields), reading a property of undefined raises a
TypeError (hence Except-typed accessors), and string interpolation of
undefined produces the text "undefined".  Wall-clock timestamps are
modelled by a strictly increasing logical counter held in the processor
state.  All recursion is structural so that concrete runs reduce inside
the kernel.
-/

set_option maxRecDepth 8192

deriving instance DecidableEq for Except

namespace Aiora

/-! ## Serialized request queue

`RequestQueue` keeps `queue : (() => Promise<any>)[]` and a `processing`
flag.  `add` wraps the task so that its failure only rejects the caller
future, pushes the wrapper, and calls `process`; `process` returns at its
guard when a drain is already running or the queue is empty, otherwise it
shifts-and-awaits until the backlog is empty.  A task is modelled by its
eventual outcome; the settlement order of the futures is the list of
(task id, outcome) pairs in the order the drain awaits the wrappers.
Re-entrant `add` calls can only happen while the drain is suspended in an
await, so they are modelled by one batch of newly queued tasks per awaited
task (the arrival schedule). -/

structure QTask where
  tid : Nat
  result : Except String Nat
deriving Repr, DecidableEq

/-- Settlement of one wrapper: the task resolves or rejects its own future. -/
def compTask (t : QTask) : Nat × Except String Nat := (t.tid, t.result)

/-- The drain once no further re-entrant enqueues arrive: shift-and-await
until the backlog is empty. -/
def drainAll : List QTask → List (Nat × Except String Nat)
  | [] => []
  | t :: rest => compTask t :: drainAll rest

/-- One drain of `process`: awaiting the head wrapper settles its future,
and the batch of tasks enqueued during that await lands at the tail of the
queue before the loop condition is re-checked.  When the queue empties the
drain exits (`processing := false`); later batches belong to later drains. -/
def drainLoop : List QTask → List (List QTask) → List (Nat × Except String Nat)
  | q, [] => drainAll q
  | [], _ :: _ => []
  | t :: rest, b :: bs => compTask t :: drainLoop (rest ++ b) bs

structure QueueState where
  queue : List QTask
  processing : Bool
  completed : List (Nat × Except String Nat)
deriving Repr, DecidableEq

/-- `process()`: returns at the guard when a drain is running or nothing is
queued; otherwise runs the drain to completion against the arrival
schedule.  The returned Bool records whether this call started a drain. -/
def RequestQueue.process (arr : List (List QTask)) (s : QueueState) : QueueState × Bool :=
  if s.processing || s.queue.isEmpty then (s, false)
  else ({ queue := [], processing := false, completed := s.completed ++ drainLoop s.queue arr }, true)

/-- `add(task)`: push the wrapper, then call `process()`. -/
def RequestQueue.add (t : QTask) (arr : List (List QTask)) (s : QueueState) : QueueState × Bool :=
  RequestQueue.process arr { s with queue := s.queue ++ [t] }

/-! ## Conversation-thread reconstructor

`buildConversationThread(post, client, maxDepth)` keeps a `visited` id set
and a `thread` accumulator, and walks ancestors through an inner
`processThread(currentPost, depth)`.  The source recursion carries `depth`
upward and stops at `depth >= maxDepth`; the embedding carries the
remaining budget `gap = maxDepth - depth` downward so that the recursion
is structural (gap = 0 exactly when depth >= maxDepth).  The memory store
and the post source are environment functions; the ancestor fetch
(`getUserStatuses` with `limit: 1`) returns at most one post and a thrown
fetch error is caught, ending the walk with the thread built so far. -/

structure TruthAccount where
  username : String
  display_name : String
deriving Repr, DecidableEq

structure TruthStatus where
  id : String
  content : String
  url : String
  created_at : Nat
  in_reply_to_id : Option String
  account : TruthAccount
deriving Repr, DecidableEq

/-- Modelled from the spec: `stringToUuid` of the external eliza package
(not part of this repository) deterministically derives a record id from
its input string; the spec only requires the derivation to be
deterministic, modelled here as an injective tagging of the input. -/
def stringToUuid (s : String) : String := "uuid-" ++ s

structure WalkMemory where
  id : String
  agentId : String
  roomId : String
  userId : String
  text : String
  url : String
  inReplyTo : Option String
  createdAt : Nat
deriving Repr, DecidableEq

/-- The record written for a visited post: every derived field follows
lines 47-62 of utils.ts (the embedding-zero vector and `ensureConnection`
side call carry no data the claims mention). -/
def mkWalkMemory (agentId : String) (p : TruthStatus) : WalkMemory :=
  { id := stringToUuid (p.id ++ "-" ++ agentId)
    agentId := agentId
    roomId := stringToUuid (p.id ++ "-" ++ agentId)
    userId := stringToUuid p.id
    text := p.content
    url := p.url
    inReplyTo := p.in_reply_to_id.map (fun r => stringToUuid (r ++ "-" ++ agentId))
    createdAt := p.created_at }

structure WalkEnv where
  agentId : String
  /-- Which record ids the memory store already holds before the walk. -/
  storeHas : String → Bool
  /-- At most one ancestor per fetch; `Except.error` models a thrown fetch. -/
  fetchAncestor : TruthStatus → Except Unit (Option TruthStatus)

structure WalkState where
  visited : List String
  thread : List TruthStatus
  created : List WalkMemory
deriving Repr, DecidableEq

/-- Inner `processThread`; `thread.unshift` is a cons, so ancestors reached
later end up in front of the accumulator.  `getMemoryById` consults the
store including the records created earlier in this walk. -/
def processThread (env : WalkEnv) : Nat → Option TruthStatus → WalkState → WalkState
  | _, none, s => s
  | 0, some _, s => s
  | gap + 1, some p, s =>
    if p.id ∈ s.visited then s
    else
      let memId := stringToUuid (p.id ++ "-" ++ env.agentId)
      let created2 : List WalkMemory :=
        if env.storeHas memId || s.created.any (fun m => m.id == memId) then s.created
        else s.created ++ [mkWalkMemory env.agentId p]
      let s2 : WalkState :=
        { visited := p.id :: s.visited, thread := p :: s.thread, created := created2 }
      match p.in_reply_to_id with
      | none => s2
      | some _ =>
        match env.fetchAncestor p with
        | .error _ => s2
        | .ok parent => processThread env gap parent s2

def buildConversationThread (env : WalkEnv) (post : TruthStatus) (maxDepth : Nat) : WalkState :=
  processThread env maxDepth (some post) { visited := [], thread := [], created := [] }

/-- Proof-side characterisation of the walk: the posts in visit order
(leaf first), ignoring the memory side effects.  The thread accumulator is
the reverse of this list. -/
def visitList (env : WalkEnv) : Nat → Option TruthStatus → List String → List TruthStatus
  | _, none, _ => []
  | 0, some _, _ => []
  | gap + 1, some p, vis =>
    if p.id ∈ vis then []
    else
      match p.in_reply_to_id with
      | none => [p]
      | some _ =>
        match env.fetchAncestor p with
        | .error _ => [p]
        | .ok parent => p :: visitList env gap parent (p.id :: vis)

/-! ## Mention processor

Data model of mentions-processor.ts.  The cached snapshot
`currentStatus : StatusUpdate | null` is built by JavaScript spreads that
may start from `null`, so every field of the cached object is
Option-typed: `none` is an absent key.  A `Partial<StatusUpdate>` passed
to `updateStatus` has the same shape. -/

structure TwitterMention where
  id : String
  conversationId : String
  userId : String
  timestamp : Nat
  text : String
  response : Option String
  thoughts : Option String
deriving Repr, DecidableEq

structure TwitterProfile where
  id : String
  username : String
  screenName : String
  bio : List String
  nicknames : List String
deriving Repr, DecidableEq

structure TwitterStatus where
  profile : TwitterProfile
  isConnected : Bool
  recentMentions : Nat
  requestQueueSize : Nat
deriving Repr, DecidableEq

structure TwitterMemoryContent where
  text : String
  response : String
  thoughts : String
  timestamp : Nat
deriving Repr, DecidableEq

structure TwitterMemory where
  id : String
  agentId : String
  roomId : String
  userId : String
  content : TwitterMemoryContent
deriving Repr, DecidableEq

structure RecentProfile where
  id : String
  username : String
  screenName : String
  bio : List String
  nicknames : List String
  mentions : List TwitterMention
deriving Repr, DecidableEq

structure StatusUpdate where
  currentTask : Option String
  lastUpdate : Option Nat
  twitter : Option TwitterStatus
  recentMemories : Option (List TwitterMemory)
  recentProfile : Option RecentProfile
deriving Repr, DecidableEq

def emptyUpdate : StatusUpdate :=
  { currentTask := none, lastUpdate := none, twitter := none
    recentMemories := none, recentProfile := none }

structure MemoryContent where
  text : String
  response : String
  source : String
deriving Repr, DecidableEq

structure Memory where
  id : String
  agentId : String
  roomId : String
  userId : String
  content : MemoryContent
deriving Repr, DecidableEq

/-- JavaScript truthiness of an optional string field: absent and empty
strings are falsy. -/
def truthyS : Option String → Bool
  | none => false
  | some s => !(s == "")

/-- `{...this.currentStatus!, ...update, lastUpdate: now}`: spreading null
yields `{}`, a key present in `update` wins, `lastUpdate` is stamped. -/
def mergeStatus (cur : Option StatusUpdate) (u : StatusUpdate) (now : Nat) : StatusUpdate :=
  { currentTask := u.currentTask <|> cur.bind (fun c => c.currentTask)
    lastUpdate := some now
    twitter := u.twitter <|> cur.bind (fun c => c.twitter)
    recentMemories := u.recentMemories <|> cur.bind (fun c => c.recentMemories)
    recentProfile := u.recentProfile <|> cur.bind (fun c => c.recentProfile) }

structure ProcState where
  currentStatus : Option StatusUpdate
  lastProcessedMentionId : Option String
  /-- logical reading of the wall clock used for `lastUpdate` stamps -/
  clock : Nat
deriving Repr, DecidableEq

inductive MPEvent where
  /-- `textService.generateText` invoked while reviewing the given mention -/
  | genCall (mentionId : String) (prompt : String)
  /-- `getMemoryManager('twitter').createMemory` invoked -/
  | memCreate (mem : TwitterMemory)
  /-- POST of the merged snapshot to the status endpoint -/
  | statusPost (s : StatusUpdate)
  /-- GET refresh of the status endpoint -/
  | statusFetch
deriving Repr, DecidableEq

structure MPEnv where
  agentId : String
  /-- outcome of a GET on the status endpoint -/
  fetchStatus : Except String StatusUpdate
  /-- outcome of a POST of a merged snapshot -/
  postStatus : StatusUpdate → Except String Unit
  /-- `String(await runtime.composeState(tempMemory))` -/
  composeState : Memory → Except String String
  /-- the text-generation service, as a function of the prompt -/
  generateText : String → Except String String
  /-- outcome of the memory-store write -/
  createMemory : TwitterMemory → Except String Unit
  /-- which record ids the memory store already holds; the processor never
  consults it (there is no lookup before `createMemory` in this module) -/
  storeHas : String → Bool

/-- `updateStatus(update)`: without a truthy `currentTask` it refreshes the
cache from a GET; otherwise it merges into the cache (the assignment
happens before the POST, so the cache keeps the merge even when the POST
fails) and pushes the merged snapshot.  The third component is the thrown
error, if any. -/
def updateStatus (env : MPEnv) (st : ProcState) (u : StatusUpdate) :
    ProcState × List MPEvent × Option String :=
  if truthyS u.currentTask = false then
    match env.fetchStatus with
    | .ok s => ({ st with currentStatus := some s }, [.statusFetch], none)
    | .error e => (st, [.statusFetch], some e)
  else
    let merged := mergeStatus st.currentStatus u st.clock
    let st1 : ProcState := { st with currentStatus := some merged, clock := st.clock + 1 }
    match env.postStatus merged with
    | .ok _ => (st1, [.statusPost merged], none)
    | .error e => (st1, [.statusPost merged], some e)

/-- `this.currentStatus?.recentProfile.mentions.find(m => m.id === mention.id
&& m.response && m.thoughts)`: a null cache short-circuits to undefined
(falsy); a non-null cache without `recentProfile` raises a TypeError. -/
def resolvedCheck (cs : Option StatusUpdate) (mid : String) : Except String Bool :=
  match cs with
  | none => .ok false
  | some s =>
    match s.recentProfile with
    | none => .error "TypeError: cannot read mentions of undefined"
    | some rp => .ok (rp.mentions.any (fun m => m.id == mid && truthyS m.response && truthyS m.thoughts))

/-- `${this.currentStatus?.twitter.profile.bio[0]}` inside a template
string: a null cache interpolates as "undefined"; a non-null cache without
`twitter` raises a TypeError; an empty bio array interpolates as
"undefined". -/
def bioInterp (cs : Option StatusUpdate) : Except String String :=
  match cs with
  | none => .ok "undefined"
  | some s =>
    match s.twitter with
    | none => .error "TypeError: cannot read profile of undefined"
    | some tw =>
      .ok (match tw.profile.bio.head? with
           | none => "undefined"
           | some b => b)

def thoughtsPromptOf (bio0 msg : String) : String :=
  "As Aiora (" ++ bio0 ++ "), please analyze this tweet and share your thoughts:\nTweet: "
    ++ msg
    ++ "\n\nPlease consider:\n1. The context and intent of the tweet\n2. Any specific questions or requests\n3. The appropriate tone for response\n4. Any potential concerns or sensitivities\n\nShare your thoughts in a concise way."

def responsePromptOf (thoughts bio0 msg : String) : String :=
  "Based on these thoughts:\n" ++ thoughts ++ "\n\nAs Aiora (" ++ bio0
    ++ "), please compose a concise, tweet-length response to:\n" ++ msg
    ++ "\n\nKeep the response under 280 characters and focus on directly addressing the tweet."

/-- JavaScript `String.prototype.trim`: strip leading and trailing
whitespace (structural, so that concrete runs reduce in the kernel). -/
def jsTrim (s : String) : String :=
  String.mk (((s.data.dropWhile Char.isWhitespace).reverse.dropWhile Char.isWhitespace).reverse)

/-- The temporary memory object handed to `composeState`. -/
def tempMemoryOf (env : MPEnv) (m : TwitterMention) : Memory :=
  { id := m.id, agentId := env.agentId, roomId := m.conversationId
    userId := m.userId
    content := { text := m.text, response := "", source := "twitter" } }

/-- The record stored for a processed mention (lines 302-314): its id is
the mention id itself. -/
def builtMemoryOf (env : MPEnv) (m : TwitterMention) (msg resp thoughts : String) : TwitterMemory :=
  { id := m.id, agentId := env.agentId, roomId := m.conversationId, userId := m.userId
    content := { text := msg, response := jsTrim resp, thoughts := thoughts
                 timestamp := m.timestamp * 1000 } }

/-- The try block of `reviewMention` (lines 227-332), exit point by exit
point; the third component is the error thrown out of the block. -/
def reviewMentionTry (env : MPEnv) (st : ProcState) (m : TwitterMention) :
    ProcState × List MPEvent × Option String :=
  match resolvedCheck st.currentStatus m.id with
  | .error e => (st, [], some e)
  | .ok true => (st, [], none)
  | .ok false =>
    match updateStatus env st
        { emptyUpdate with
            currentTask := some ("Processing mention from " ++ m.text.take 50 ++ "...") } with
    | (st1, tr1, some e) => (st1, tr1, some e)
    | (st1, tr1, none) =>
      match env.composeState (tempMemoryOf env m) with
      | .error e => (st1, tr1, some e)
      | .ok msg =>
        match bioInterp st1.currentStatus with
        | .error e => (st1, tr1, some e)
        | .ok bio0 =>
          match env.generateText (thoughtsPromptOf bio0 msg) with
          | .error e => (st1, tr1 ++ [.genCall m.id (thoughtsPromptOf bio0 msg)], some e)
          | .ok thoughts =>
            match env.generateText (responsePromptOf thoughts bio0 msg) with
            | .error e =>
              (st1, tr1 ++ [.genCall m.id (thoughtsPromptOf bio0 msg),
                .genCall m.id (responsePromptOf thoughts bio0 msg)], some e)
            | .ok resp =>
              match env.createMemory (builtMemoryOf env m msg resp thoughts) with
              | .error e =>
                (st1, tr1 ++ [.genCall m.id (thoughtsPromptOf bio0 msg),
                  .genCall m.id (responsePromptOf thoughts bio0 msg),
                  .memCreate (builtMemoryOf env m msg resp thoughts)], some e)
              | .ok _ =>
                match st1.currentStatus with
                | none =>
                  (st1, tr1 ++ [.genCall m.id (thoughtsPromptOf bio0 msg),
                    .genCall m.id (responsePromptOf thoughts bio0 msg),
                    .memCreate (builtMemoryOf env m msg resp thoughts)],
                    some "TypeError: cannot read recentMemories of null")
                | some cs =>
                  match cs.recentProfile with
                  | none =>
                    (st1, tr1 ++ [.genCall m.id (thoughtsPromptOf bio0 msg),
                      .genCall m.id (responsePromptOf thoughts bio0 msg),
                      .memCreate (builtMemoryOf env m msg resp thoughts)],
                      some "TypeError: cannot read mentions of undefined")
                  | some rprof =>
                    match updateStatus env st1
                        { emptyUpdate with
                            currentTask := some "Mention processed"
                            recentMemories := some ((cs.recentMemories.getD []) ++
                              [builtMemoryOf env m msg resp thoughts])
                            recentProfile := some { rprof with
                              mentions := rprof.mentions.map (fun x =>
                                if x.id == m.id then
                                  { x with response := some (jsTrim resp)
                                           thoughts := some thoughts }
                                else x) } } with
                    | (st2, tr2, e2) =>
                      (st2, tr1 ++ [.genCall m.id (thoughtsPromptOf bio0 msg),
                        .genCall m.id (responsePromptOf thoughts bio0 msg),
                        .memCreate (builtMemoryOf env m msg resp thoughts)] ++ tr2, e2)


/-- `reviewMention` with its catch block: on an error it posts an
error-task status update and rethrows (the update failure, if any,
replaces the original error). -/
def reviewMention (env : MPEnv) (st : ProcState) (m : TwitterMention) :
    ProcState × List MPEvent × Option String :=
  match reviewMentionTry env st m with
  | (st1, tr, none) => (st1, tr, none)
  | (st1, tr, some e) =>
    match updateStatus env st1 { emptyUpdate with currentTask := some ("Error processing mention: " ++ e) } with
    | (st2, tr2, none) => (st2, tr ++ tr2, some e)
    | (st2, tr2, some e2) => (st2, tr ++ tr2, some e2)

/-- `this.currentStatus?.recentProfile.mentions || []` (line 198). -/
def getMentionsList (cs : Option StatusUpdate) : Except String (List TwitterMention) :=
  match cs with
  | none => .ok []
  | some s =>
    match s.recentProfile with
    | none => .error "TypeError: cannot read mentions of undefined"
    | some rp => .ok rp.mentions

inductive PassOutcome where
  /-- the pass completed; the loop sleeps `pollingInterval` -/
  | ok
  /-- a caught error: logged, error-task merged, sleeps `retryDelay` -/
  | retry (e : String)
  /-- the error-task update itself threw; the rejection escapes the loop -/
  | crash (e : String)
deriving Repr, DecidableEq

structure PassResult where
  state : ProcState
  trace : List MPEvent
  /-- mention ids for which `reviewMention` was invoked, in order -/
  attempted : List String
  outcome : PassOutcome
deriving Repr, DecidableEq

/-- The catch block of the poll loop (lines 212-219). -/
def passCatch (env : MPEnv) (st : ProcState) (tr : List MPEvent) (att : List String)
    (e : String) : PassResult :=
  match updateStatus env st { emptyUpdate with currentTask := some ("Error: " ++ e) } with
  | (st1, tr1, none) => { state := st1, trace := tr ++ tr1, attempted := att, outcome := .retry e }
  | (st1, tr1, some e2) => { state := st1, trace := tr ++ tr1, attempted := att, outcome := .crash e2 }

/-- The for-loop of a pass (lines 200-208): skip on the cursor, review,
advance the cursor; the mention list was captured before the loop while
the cache keeps evolving. -/
def processLoop (env : MPEnv) : ProcState → List MPEvent → List String → List TwitterMention → PassResult
  | st, tr, att, [] => { state := st, trace := tr, attempted := att, outcome := .ok }
  | st, tr, att, m :: rest =>
    if st.lastProcessedMentionId == some m.id then processLoop env st tr att rest
    else
      match reviewMention env st m with
      | (st1, tr1, some e) => passCatch env st1 (tr ++ tr1) (att ++ [m.id]) e
      | (st1, tr1, none) =>
        processLoop env { st1 with lastProcessedMentionId := some m.id } (tr ++ tr1) (att ++ [m.id]) rest

/-- One iteration of the `while (this.isProcessing)` body: merge the
checking-task status, read the captured mention list, run the loop; any
thrown error lands in the catch. -/
def processMentionsOnce (env : MPEnv) (st : ProcState) : PassResult :=
  match updateStatus env st { emptyUpdate with currentTask := some "Checking for mentions" } with
  | (st1, tr1, some e) => passCatch env st1 tr1 [] e
  | (st1, tr1, none) =>
    match getMentionsList st1.currentStatus with
    | .error e => passCatch env st1 tr1 [] e
    | .ok ms => processLoop env st1 tr1 [] ms

/-! ## Derived observations used by the claims -/

/-- The snapshot entries carrying a given mention id. -/
def mentionsWithId (cs : Option StatusUpdate) (i : String) : List TwitterMention :=
  match cs with
  | none => []
  | some s =>
    match s.recentProfile with
    | none => []
    | some rp => rp.mentions.filter (fun m => m.id == i)

def isResolvedM (m : TwitterMention) : Bool := truthyS m.response && truthyS m.thoughts

/-- The cached snapshot shows some entry with this id having both
`response` and `thoughts` populated. -/
def showsResolved (cs : Option StatusUpdate) (i : String) : Bool :=
  (mentionsWithId cs i).any isResolvedM

def isGenCall : MPEvent → Bool
  | .genCall _ _ => true
  | _ => false

def isMemCreate : MPEvent → Bool
  | .memCreate _ => true
  | _ => false

/-- Ids of the records handed to `createMemory` in a trace. -/
def memCreateIds (tr : List MPEvent) : List String :=
  tr.filterMap (fun ev => match ev with
    | .memCreate mem => some mem.id
    | _ => none)

/-- The records handed to `createMemory` in a trace. -/
def memCreates (tr : List MPEvent) : List TwitterMemory :=
  tr.filterMap (fun ev => match ev with
    | .memCreate mem => some mem
    | _ => none)

/-- Modelled from the spec: the element-wise by-id deep merge of the
`mentions` array that §4.4 attributes to the status merge — an updated
entry replaces the same-id cached entry, cached entries without an update
are kept, and new entries are appended. -/
def mergeMentionsById (old upd : List TwitterMention) : List TwitterMention :=
  old.map (fun m => ((upd.find? (fun x => x.id == m.id)).getD m)) ++
    upd.filter (fun x => !(old.any (fun m => m.id == x.id)))

/-! ## Concrete instances used as test vectors -/

/-- A two-post cycle: A answers B and B answers A. -/
def postA : TruthStatus :=
  { id := "A", content := "a", url := "", created_at := 0, in_reply_to_id := some "B",
    account := { username := "u", display_name := "U" } }

def postB : TruthStatus :=
  { id := "B", content := "b", url := "", created_at := 0, in_reply_to_id := some "A",
    account := { username := "u", display_name := "U" } }

def cycleEnv : WalkEnv :=
  { agentId := "g", storeHas := fun _ => false,
    fetchAncestor := fun p =>
      .ok (if p.id == "A" then some postB else if p.id == "B" then some postA else none) }

/-- The id of the i-th post of the canonical linear chain; the length of
the id recovers the index. -/
def chainId (i : Nat) : String := String.mk (List.replicate i 'a')

/-- The canonical linear chain: post i answers post i-1, post 0 is the root. -/
def chainPost (i : Nat) : TruthStatus :=
  { id := chainId i, content := "c", url := "u", created_at := i,
    in_reply_to_id := if i = 0 then none else some (chainId (i - 1)),
    account := { username := "user", display_name := "User" } }

def chainEnv : WalkEnv :=
  { agentId := "agent", storeHas := fun _ => false,
    fetchAncestor := fun p =>
      .ok (match p.in_reply_to_id with
           | none => none
           | some _ => some (chainPost (p.id.length - 1))) }

/-- Two unresolved mentions in the cached snapshot. -/
def exM1 : TwitterMention :=
  { id := "m1", conversationId := "c", userId := "u", timestamp := 0, text := "t1",
    response := none, thoughts := none }

def exM2 : TwitterMention :=
  { id := "m2", conversationId := "c", userId := "u", timestamp := 0, text := "t2",
    response := none, thoughts := none }

/-- A resolved mention (response and thoughts populated). -/
def exM3 : TwitterMention :=
  { id := "m3", conversationId := "c", userId := "u", timestamp := 0, text := "t3",
    response := some "r", thoughts := some "th" }

def exProfile : TwitterProfile :=
  { id := "p", username := "un", screenName := "sn", bio := ["b"], nicknames := [] }

/-- A fully populated cached snapshot. -/
def exSnap : StatusUpdate :=
  { currentTask := some "idle", lastUpdate := some 0,
    twitter := some { profile := exProfile, isConnected := true, recentMentions := 3,
                      requestQueueSize := 0 },
    recentMemories := some [],
    recentProfile := some { id := "p", username := "un", screenName := "sn", bio := ["b"],
                            nicknames := [], mentions := [exM1, exM2, exM3] } }

/-- Environment in which every collaborator call succeeds. -/
def envOk : MPEnv :=
  { agentId := "agent", fetchStatus := .error "unused",
    postStatus := fun _ => .ok (), composeState := fun mem => .ok mem.content.text,
    generateText := fun _ => .ok "gen", createMemory := fun _ => .ok (),
    storeHas := fun _ => false }

/-- Same, but the text-generation service always fails. -/
def envGenFail : MPEnv :=
  { envOk with generateText := fun _ => .error "boom" }

/-- Same as `envOk`, but the memory store already holds every record id. -/
def envStoreFull : MPEnv :=
  { envOk with storeHas := fun _ => true }

/-- Same as `envOk`, but run for a different agent. -/
def envOkAgentB : MPEnv :=
  { envOk with agentId := "agentB" }

def exSt : ProcState :=
  { currentStatus := some exSnap, lastProcessedMentionId := none, clock := 0 }

/-- The processor state before any successful refresh: a null cache. -/
def exStNull : ProcState :=
  { currentStatus := none, lastProcessedMentionId := none, clock := 0 }

/-- Cached snapshot and patch for the status-merge test vector. -/
def exM1Upd : TwitterMention := { exM1 with response := some "r1", thoughts := some "t1" }

def exPatch : StatusUpdate :=
  { emptyUpdate with
      currentTask := some "Mention processed",
      recentProfile := some { id := "p", username := "un", screenName := "sn", bio := ["b"],
                              nicknames := [], mentions := [exM1Upd] } }

/-! ## Queue lemmas -/

theorem drainAll_eq_map (q : List QTask) : drainAll q = q.map compTask := by
  induction q with
  | nil => rfl
  | cons t rest ih => simp [drainAll, ih]

theorem drainLoop_nil (q : List QTask) : drainLoop q [] = q.map compTask := by
  cases q <;> simp [drainLoop, drainAll_eq_map, drainAll]

theorem drainLoop_is_submission_order_head (bs : List (List QTask)) :
    ∀ q : List QTask, ∃ r, (q ++ bs.flatten).map compTask = drainLoop q bs ++ r := by
  induction bs with
  | nil =>
    intro q
    exact ⟨[], by simp [drainLoop_nil]⟩
  | cons b bs ih =>
    intro q
    cases q with
    | nil => exact ⟨((b :: bs).flatten).map compTask, by simp [drainLoop]⟩
    | cons t rest =>
      obtain ⟨r, hr⟩ := ih (rest ++ b)
      refine ⟨r, ?_⟩
      have hassoc : rest ++ (b ++ bs.flatten) = (rest ++ b) ++ bs.flatten := by
        simp [List.append_assoc]
      simp only [drainLoop, List.cons_append, List.flatten_cons, List.map_cons, hassoc, hr]

/-- C5: FIFO with a single in-flight drain.  (1) whatever re-entrant
batches arrive at the suspension points, the futures settle in exactly the
submission order (the settled list is an initial segment of the submission
order, the rest being tasks left for a later drain); (2) a drain without
re-entrant enqueues settles the whole backlog in submission order — task
latency does not exist as a reordering mechanism because the drain awaits
each task before shifting the next; (3) an `add` arriving while a drain is
running (`processing = true`) only appends to the backlog: `process`
returns at its guard and no second drain starts. -/
theorem c5_queue_fifo_single_drain :
    (∀ (q : List QTask) (bs : List (List QTask)), ∃ r,
        (q ++ bs.flatten).map compTask = drainLoop q bs ++ r) ∧
    (∀ q : List QTask, drainLoop q [] = q.map compTask) ∧
    (∀ (t : QTask) (arr : List (List QTask)) (s : QueueState), s.processing = true →
        RequestQueue.add t arr s = ({ s with queue := s.queue ++ [t] }, false)) := by
  refine ⟨fun q bs => drainLoop_is_submission_order_head bs q, drainLoop_nil, ?_⟩
  intro t arr s h
  simp [RequestQueue.add, RequestQueue.process, h]

theorem c5_queue_fifo_single_drain_witness :
    ({ queue := [], processing := true, completed := [] } : QueueState).processing = true ∧
    RequestQueue.add { tid := 1, result := .ok 0 } []
        { queue := [], processing := true, completed := [] } =
      ({ queue := [{ tid := 1, result := .ok 0 }], processing := true, completed := [] }, false) := by
  refine ⟨rfl, ?_⟩
  have h := c5_queue_fifo_single_drain.2.2 { tid := 1, result := .ok 0 } []
    { queue := [], processing := true, completed := [] } rfl
  simpa using h

/-- C6: queue failure isolation.  A task that throws settles only its own
future as rejected; the drain continues, every subsequently enqueued task
still executes, and a succeeding task's future resolves with its own
result. -/
theorem c6_queue_failure_isolation (pre post : List QTask) (t : QTask) (e : String)
    (h : t.result = .error e) :
    drainLoop (pre ++ t :: post) [] =
      pre.map compTask ++ (t.tid, Except.error e) :: post.map compTask ∧
    ∀ u ∈ post, (u.tid, u.result) ∈ drainLoop (pre ++ t :: post) [] := by
  have hmain : drainLoop (pre ++ t :: post) [] =
      pre.map compTask ++ (t.tid, Except.error e) :: post.map compTask := by
    simp [drainLoop_nil, compTask, h]
  refine ⟨hmain, ?_⟩
  intro u hu
  rw [hmain]
  refine List.mem_append_right _ (List.mem_cons_of_mem _ ?_)
  exact List.mem_map.mpr ⟨u, hu, rfl⟩

theorem c6_queue_failure_isolation_witness :
    ({ tid := 2, result := .error "E" } : QTask).result = Except.error "E" ∧
    drainLoop [{ tid := 1, result := .ok 5 }, { tid := 2, result := .error "E" },
               { tid := 3, result := .ok 7 }] [] =
      [(1, Except.ok 5), (2, Except.error "E"), (3, Except.ok 7)] := by
  refine ⟨rfl, ?_⟩
  have h := (c6_queue_failure_isolation [{ tid := 1, result := .ok 5 }]
    [{ tid := 3, result := .ok 7 }] { tid := 2, result := .error "E" } "E" rfl).1
  simpa [compTask] using h

/-! ## Thread-walk lemmas -/

theorem processThread_spec (env : WalkEnv) :
    ∀ (gap : Nat) (po : Option TruthStatus) (s : WalkState),
      (processThread env gap po s).thread = (visitList env gap po s.visited).reverse ++ s.thread ∧
      (processThread env gap po s).visited =
        ((visitList env gap po s.visited).map (fun p => p.id)).reverse ++ s.visited := by
  intro gap
  induction gap with
  | zero =>
    intro po s
    cases po <;> simp [processThread, visitList]
  | succ gap ih =>
    intro po s
    cases po with
    | none => simp [processThread, visitList]
    | some p =>
      by_cases hmem : p.id ∈ s.visited
      · simp [processThread, visitList, hmem]
      · simp only [processThread, visitList, hmem, if_false]
        cases hrep : p.in_reply_to_id with
        | none => simp
        | some pid =>
          cases hf : env.fetchAncestor p with
          | error u => simp
          | ok parent =>
            refine ⟨?_, ?_⟩
            · rw [(ih parent _).1]
              simp [List.append_assoc]
            · rw [(ih parent _).2]
              simp [List.append_assoc]

theorem visitList_length (env : WalkEnv) :
    ∀ (gap : Nat) (po : Option TruthStatus) (vis : List String),
      (visitList env gap po vis).length ≤ gap := by
  intro gap
  induction gap with
  | zero =>
    intro po vis
    cases po <;> simp [visitList]
  | succ gap ih =>
    intro po vis
    cases po with
    | none => simp [visitList]
    | some p =>
      by_cases hmem : p.id ∈ vis
      · simp [visitList, hmem]
      · simp only [visitList, hmem, if_false]
        cases p.in_reply_to_id with
        | none => simp
        | some pid =>
          cases env.fetchAncestor p with
          | error u => simp
          | ok parent =>
            have := ih parent (p.id :: vis)
            simpa using Nat.succ_le_succ this

theorem visitList_nodup (env : WalkEnv) :
    ∀ (gap : Nat) (po : Option TruthStatus) (vis : List String),
      ((visitList env gap po vis).map (fun p => p.id)).Nodup ∧
      ∀ q ∈ visitList env gap po vis, q.id ∉ vis := by
  intro gap
  induction gap with
  | zero =>
    intro po vis
    cases po <;> simp [visitList]
  | succ gap ih =>
    intro po vis
    cases po with
    | none => simp [visitList]
    | some p =>
      by_cases hmem : p.id ∈ vis
      · simp [visitList, hmem]
      · simp only [visitList, hmem, if_false]
        cases p.in_reply_to_id with
        | none => simpa using hmem
        | some pid =>
          cases env.fetchAncestor p with
          | error u => simpa using hmem
          | ok parent =>
            obtain ⟨hnd, hnin⟩ := ih parent (p.id :: vis)
            refine ⟨?_, ?_⟩
            · simp only [List.map_cons, List.nodup_cons, hnd, and_true]
              intro hcon
              obtain ⟨q, hq, hqid⟩ := List.mem_map.mp hcon
              exact (hnin q hq) (by simp [hqid])
            · intro q hq
              rcases List.mem_cons.mp hq with hq | hq
              · subst hq; exact hmem
              · have := hnin q hq
                intro hv
                exact this (List.mem_cons_of_mem _ hv)

theorem chainId_length (i : Nat) : (chainId i).length = i := by
  simp [chainId, String.length]

theorem chain_fetch (k : Nat) :
    chainEnv.fetchAncestor (chainPost (k + 1)) = .ok (some (chainPost k)) := by
  simp [chainEnv, chainPost, chainId]

theorem chain_visitList :
    ∀ (m : Nat) (gap : Nat) (vis : List String),
      (∀ j, chainId j ∈ vis → m < j) →
      visitList chainEnv gap (some (chainPost m)) vis =
        (List.range' (m + 1 - min (m + 1) gap) (min (m + 1) gap)).reverse.map chainPost := by
  intro m
  induction m with
  | zero =>
    intro gap vis hfresh
    cases gap with
    | zero => simp [visitList]
    | succ g =>
      have hnm : chainId 0 ∉ vis := fun hc => absurd (hfresh 0 hc) (by omega)
      have hid : (chainPost 0).id = chainId 0 := rfl
      simp [visitList, chainPost, hid, hnm, List.range']
  | succ k ih =>
    intro gap vis hfresh
    cases gap with
    | zero => simp [visitList]
    | succ g =>
      have hnm : (chainPost (k + 1)).id ∉ vis := by
        show chainId (k + 1) ∉ vis
        intro hc
        exact absurd (hfresh (k + 1) hc) (by omega)
      have hrep : (chainPost (k + 1)).in_reply_to_id = some (chainId k) := by
        simp [chainPost]
      have hfresh2 : ∀ j, chainId j ∈ (chainPost (k + 1)).id :: vis → k < j := by
        intro j hj
        rcases List.mem_cons.mp hj with hj | hj
        · have : chainId j = chainId (k + 1) := hj
          have hlen := congrArg String.length this
          simp [chainId_length] at hlen
          omega
        · have := hfresh j hj
          omega
      have hrec := ih g ((chainPost (k + 1)).id :: vis) hfresh2
      have hc : min (k + 1 + 1) (g + 1) = min (k + 1) g + 1 := by omega
      simp only [visitList, hnm, if_false, hrep, chain_fetch, hrec]
      rw [hc]
      have hle : min (k + 1) g ≤ k + 1 := by omega
      have harith : k + 1 + 1 - (min (k + 1) g + 1) = k + 1 - min (k + 1) g := by omega
      rw [harith]
      rw [List.range'_concat]
      have hval : k + 1 - min (k + 1) g + min (k + 1) g = k + 1 := by omega
      simp [hval]

/-- C7: thread ordering.  Over the canonical linear chain of `n`
parent-linked posts (post `i` answers post `i - 1`), `buildConversationThread`
on the leaf returns the visited posts oldest-first: the thread is the
contiguous block of the `min n maxD` newest posts in ascending age order,
its index 0 is the oldest ancestor reached (the root `chainPost 0`
whenever `n ≤ maxD`), and the triggering leaf post is last. -/
theorem c7_thread_ordering (n maxD : Nat) (hn : 0 < n) (hd : 0 < maxD) :
    (buildConversationThread chainEnv (chainPost (n - 1)) maxD).thread =
      (List.range' (n - min n maxD) (min n maxD)).map chainPost ∧
    (buildConversationThread chainEnv (chainPost (n - 1)) maxD).thread.head? =
      some (chainPost (n - min n maxD)) ∧
    (buildConversationThread chainEnv (chainPost (n - 1)) maxD).thread.getLast? =
      some (chainPost (n - 1)) ∧
    (n ≤ maxD → n - min n maxD = 0) := by
  have hspec := (processThread_spec chainEnv maxD (some (chainPost (n - 1)))
    { visited := [], thread := [], created := [] }).1
  have hv := chain_visitList (n - 1) maxD [] (by intro j hj; simp at hj)
  have hsub : n - 1 + 1 = n := by omega
  rw [hsub] at hv
  have hthread : (buildConversationThread chainEnv (chainPost (n - 1)) maxD).thread =
      (List.range' (n - min n maxD) (min n maxD)).map chainPost := by
    rw [buildConversationThread, hspec]
    simp only [hv]
    simp [List.map_reverse]
  refine ⟨hthread, ?_, ?_, by omega⟩
  · rw [hthread]
    obtain ⟨c, hc⟩ : ∃ c, min n maxD = c + 1 := ⟨min n maxD - 1, by omega⟩
    rw [hc, List.range'_succ]
    simp
  · rw [hthread]
    obtain ⟨c, hc⟩ : ∃ c, min n maxD = c + 1 := ⟨min n maxD - 1, by omega⟩
    rw [hc, List.range'_concat]
    have hval : n - (c + 1) + c = n - 1 := by omega
    simp [hval]

theorem c7_thread_ordering_witness :
    0 < 4 ∧ 0 < 10 ∧
    (buildConversationThread chainEnv (chainPost 3) 10).thread =
      (List.range' 0 4).map chainPost := by
  refine ⟨by decide, by decide, ?_⟩
  have h := (c7_thread_ordering 4 10 (by decide) (by decide)).1
  simpa using h

/-- C8: cycle safety.  For every post graph and depth bound the walk is a
total function whose returned thread carries each post id at most once
(the visited set blocks revisits), and on the concrete two-cycle
(A answers B, B answers A) the walk returns the two posts once each. -/
theorem c8_cycle_safety :
    (∀ (env : WalkEnv) (post : TruthStatus) (maxD : Nat),
        (((buildConversationThread env post maxD).thread.map (fun p => p.id)).Nodup)) ∧
    (buildConversationThread cycleEnv postA 10).thread = [postB, postA] := by
  constructor
  · intro env post maxD
    have hspec := (processThread_spec env maxD (some post)
      { visited := [], thread := [], created := [] }).1
    rw [buildConversationThread, hspec]
    have hnd := (visitList_nodup env maxD (some post) []).1
    simp only [List.append_nil, List.map_reverse]
    exact List.nodup_reverse.mpr hnd
  · decide

/-- C9: depth bound.  The thread returned by the walk never exceeds the
depth budget: its length is at most `maxDepth` and hence at most
`maxDepth + 1` as claimed, and the chain-of-ten instance with
`maxDepth = 3` returns at most 3 posts. -/
theorem c9_depth_bound :
    (∀ (env : WalkEnv) (post : TruthStatus) (maxD : Nat),
        (buildConversationThread env post maxD).thread.length ≤ maxD + 1) ∧
    (buildConversationThread chainEnv (chainPost 9) 3).thread.length ≤ 3 := by
  constructor
  · intro env post maxD
    have hspec := (processThread_spec env maxD (some post)
      { visited := [], thread := [], created := [] }).1
    rw [buildConversationThread, hspec]
    have := visitList_length env maxD (some post) []
    simp only [List.append_nil, List.length_reverse]
    omega
  · decide

/-! ## Mention-processor lemmas -/

theorem truthyS_of_len (s : String) (h : s.length ≠ 0) : truthyS (some s) = true := by
  have hne : s ≠ "" := by
    intro hcon
    subst hcon
    exact h rfl
  simp [truthyS, hne]

theorem len_append_left (a b : String) (h : a.length ≠ 0) : (a ++ b).length ≠ 0 := by
  rw [String.length_append]
  omega

/-- The `currentTask` value of every status patch the processor merges is
a nonempty string, so `updateStatus` always takes the merge branch. -/
theorem truthy_lit_append (a b : String) (h : a.length ≠ 0) :
    truthyS (some (a ++ b)) = true :=
  truthyS_of_len _ (len_append_left a b h)

theorem updateStatus_merge (env : MPEnv) (st : ProcState) (u : StatusUpdate)
    (h : truthyS u.currentTask = true) :
    (updateStatus env st u).1 =
      { st with currentStatus := some (mergeStatus st.currentStatus u st.clock)
                clock := st.clock + 1 } ∧
    (updateStatus env st u).2.1 = [.statusPost (mergeStatus st.currentStatus u st.clock)] := by
  simp only [updateStatus, h]
  cases env.postStatus (mergeStatus st.currentStatus u st.clock) <;> simp

theorem mentionsWithId_merge_none (cur : Option StatusUpdate) (u : StatusUpdate) (now : Nat)
    (i : String) (h : u.recentProfile = none) :
    mentionsWithId (some (mergeStatus cur u now)) i = mentionsWithId cur i := by
  cases cur with
  | none => simp [mergeStatus, mentionsWithId, h]
  | some c =>
    cases hc : c.recentProfile <;> simp [mergeStatus, mentionsWithId, h, hc]

theorem mentionsWithId_merge_some (cur : Option StatusUpdate) (u : StatusUpdate) (now : Nat)
    (i : String) (rp : RecentProfile) (h : u.recentProfile = some rp) :
    mentionsWithId (some (mergeStatus cur u now)) i =
      rp.mentions.filter (fun m => m.id == i) := by
  simp [mergeStatus, mentionsWithId, h]

theorem filter_map_of_fix {α : Type} (l : List α) (f : α → α) (p : α → Bool)
    (h1 : ∀ x, p (f x) = p x) (h2 : ∀ x, p x = true → f x = x) :
    (l.map f).filter p = l.filter p := by
  induction l with
  | nil => rfl
  | cons x xs ih =>
    simp only [List.map_cons, List.filter_cons, h1 x]
    cases hp : p x with
    | false => simpa [hp] using ih
    | true => simp [hp, h2 x hp, ih]

theorem filter_map_update (l : List TwitterMention) (mid i : String) (resp th : String)
    (hne : mid ≠ i) :
    ((l.map (fun x => if x.id == mid then
        { x with response := some resp, thoughts := some th } else x)).filter
      (fun m => m.id == i)) = l.filter (fun m => m.id == i) := by
  apply filter_map_of_fix
  · intro x
    by_cases hx : (x.id == mid) = true
    · simp [hx]
    · simp [hx]
  · intro x hp
    have hxi : x.id = i := by
      have := hp
      rwa [beq_iff_eq] at this
    have hxm : (x.id == mid) = false := by
      rw [beq_eq_false_iff_ne, hxi]
      exact fun hcon => hne hcon.symm
    simp [hxm]

theorem resolvedCheck_of_shows (cs : Option StatusUpdate) (i : String)
    (h : showsResolved cs i = true) : resolvedCheck cs i = .ok true := by
  cases cs with
  | none => simp [showsResolved, mentionsWithId] at h
  | some s =>
    cases hc : s.recentProfile with
    | none => simp [showsResolved, mentionsWithId, hc] at h
    | some rp =>
      simp only [showsResolved, mentionsWithId, hc, List.any_filter, isResolvedM] at h
      simp only [resolvedCheck, hc, Except.ok.injEq]
      convert h using 2 with m
      simp [Bool.and_assoc]

/-- `showsResolved` only looks at the same-id entries. -/
theorem showsResolved_congr (a b : Option StatusUpdate) (i : String)
    (h : mentionsWithId a i = mentionsWithId b i) :
    showsResolved a i = showsResolved b i := by
  simp [showsResolved, h]

theorem truthy_processing (m : TwitterMention) :
    truthyS (some ("Processing mention from " ++ m.text.take 50 ++ "...")) = true := by
  apply truthyS_of_len
  apply len_append_left
  apply len_append_left
  decide

/-- A merge-branch `updateStatus` whose patch has no `recentProfile` keeps
the same-id snapshot entries and posts no generation call. -/
theorem updateStatus_fact_none (env : MPEnv) (st : ProcState) (u : StatusUpdate)
    (st1 : ProcState) (tr1 : List MPEvent) (e1 : Option String)
    (heq : updateStatus env st u = (st1, tr1, e1))
    (hu : truthyS u.currentTask = true) (hrp : u.recentProfile = none) (i : String) :
    mentionsWithId st1.currentStatus i = mentionsWithId st.currentStatus i ∧
    ∀ p, MPEvent.genCall i p ∉ tr1 := by
  have hmerge := updateStatus_merge env st u hu
  have hst1 : st1 = { st with
      currentStatus := some (mergeStatus st.currentStatus u st.clock)
      clock := st.clock + 1 } := by
    rw [← hmerge.1, heq]
  have htr1 : tr1 = [.statusPost (mergeStatus st.currentStatus u st.clock)] := by
    rw [← hmerge.2, heq]
  constructor
  · rw [hst1]
    exact mentionsWithId_merge_none st.currentStatus u st.clock i hrp
  · rw [htr1]
    simp

/-- A merge-branch `updateStatus` whose patch carries a `recentProfile`
replaces the same-id snapshot entries with those of the patch profile. -/
theorem updateStatus_fact_some (env : MPEnv) (st : ProcState) (u : StatusUpdate)
    (st1 : ProcState) (tr1 : List MPEvent) (e1 : Option String)
    (heq : updateStatus env st u = (st1, tr1, e1))
    (hu : truthyS u.currentTask = true) (rp2 : RecentProfile)
    (hrp : u.recentProfile = some rp2) (i : String) :
    mentionsWithId st1.currentStatus i = rp2.mentions.filter (fun x => x.id == i) ∧
    ∀ p, MPEvent.genCall i p ∉ tr1 := by
  have hmerge := updateStatus_merge env st u hu
  have hst1 : st1 = { st with
      currentStatus := some (mergeStatus st.currentStatus u st.clock)
      clock := st.clock + 1 } := by
    rw [← hmerge.1, heq]
  have htr1 : tr1 = [.statusPost (mergeStatus st.currentStatus u st.clock)] := by
    rw [← hmerge.2, heq]
  constructor
  · rw [hst1]
    exact mentionsWithId_merge_some st.currentStatus u st.clock i rp2 hrp
  · rw [htr1]
    simp

/-- Reviewing one mention never rewrites or drops the snapshot entries of a
different mention id, and never issues a generation call for it. -/
theorem reviewMentionTry_preserves (env : MPEnv) (st : ProcState) (m : TwitterMention)
    (i : String) (hne : m.id ≠ i) :
    mentionsWithId ((reviewMentionTry env st m).1).currentStatus i =
      mentionsWithId st.currentStatus i ∧
    ∀ p, MPEvent.genCall i p ∉ (reviewMentionTry env st m).2.1 := by
  have hne2 : i ≠ m.id := Ne.symm hne
  unfold reviewMentionTry
  split
  · simp
  · simp
  · split
    next st1 tr1 e heq1 =>
      exact updateStatus_fact_none env st _ st1 tr1 (some e) heq1 (truthy_processing m) rfl i
    next st1 tr1 heq1 =>
      obtain ⟨hm1, hg1⟩ :=
        updateStatus_fact_none env st _ st1 tr1 none heq1 (truthy_processing m) rfl i
      split
      · exact ⟨hm1, hg1⟩
      next msg hmsg =>
        split
        · exact ⟨hm1, hg1⟩
        next bio0 hbio =>
          split
          · exact ⟨hm1, fun p => by simp [hg1 p, hne2]⟩
          next thoughts hth =>
            split
            · exact ⟨hm1, fun p => by simp [hg1 p, hne2]⟩
            next resp hresp =>
              split
              · exact ⟨hm1, fun p => by simp [hg1 p, hne2]⟩
              next u7 hmem7 =>
                split
                next hcs7 =>
                  exact ⟨hm1, fun p => by simp [hg1 p, hne2]⟩
                next cs hcs =>
                  split
                  next hrp8 =>
                    exact ⟨hm1, fun p => by simp [hg1 p, hne2]⟩
                  next rprof hrp8 =>
                    split
                    next st2 tr2 e2 heq2 =>
                      obtain ⟨hm2, hg2⟩ :=
                        updateStatus_fact_some env st1 _ st2 tr2 e2 heq2 rfl _ rfl i
                      refine ⟨?_, ?_⟩
                      · rw [hm2]
                        have hmap := filter_map_update rprof.mentions m.id i (jsTrim resp) thoughts hne
                        simp only [hmap]
                        rw [← hm1]
                        simp [mentionsWithId, hcs, hrp8]
                      · intro p
                        simp only [List.append_assoc, List.mem_append]
                        push_neg
                        refine ⟨hg1 p, ?_, hg2 p⟩
                        simp [hne2]


/-- A mention the cached snapshot already shows resolved makes
`reviewMention` return at the skip check: no state change, no events. -/
theorem reviewMention_skip (env : MPEnv) (st : ProcState) (m : TwitterMention)
    (h : showsResolved st.currentStatus m.id = true) :
    reviewMention env st m = (st, [], none) := by
  have hrc := resolvedCheck_of_shows st.currentStatus m.id h
  simp [reviewMention, reviewMentionTry, hrc]

theorem reviewMention_preserves (env : MPEnv) (st : ProcState) (m : TwitterMention)
    (i : String) (hres : showsResolved st.currentStatus i = true) :
    mentionsWithId ((reviewMention env st m).1).currentStatus i =
      mentionsWithId st.currentStatus i ∧
    ∀ p, MPEvent.genCall i p ∉ (reviewMention env st m).2.1 := by
  by_cases hid : m.id = i
  · have h2 : showsResolved st.currentStatus m.id = true := by rwa [hid]
    rw [reviewMention_skip env st m h2]
    simp
  · obtain ⟨hm1, hg1⟩ := reviewMentionTry_preserves env st m i hid
    unfold reviewMention
    split
    next st1 tr htry =>
      have hs : st1 = (reviewMentionTry env st m).1 := by rw [htry]
      have ht : tr = (reviewMentionTry env st m).2.1 := by rw [htry]
      constructor
      · rw [hs]; exact hm1
      · intro p; rw [ht]; exact hg1 p
    next st1 tr e htry =>
      have hs : st1 = (reviewMentionTry env st m).1 := by rw [htry]
      have ht : tr = (reviewMentionTry env st m).2.1 := by rw [htry]
      split
      next st2 tr2 heq2 =>
        obtain ⟨hm2, hg2⟩ := updateStatus_fact_none env st1 _ st2 tr2 none heq2
          (truthy_lit_append "Error processing mention: " e (by decide)) rfl i
        constructor
        · rw [hm2, hs]; exact hm1
        · intro p
          simp only [List.mem_append, not_or]
          exact ⟨by rw [ht]; exact hg1 p, hg2 p⟩
      next st2 tr2 e2 heq2 =>
        obtain ⟨hm2, hg2⟩ := updateStatus_fact_none env st1 _ st2 tr2 (some e2) heq2
          (truthy_lit_append "Error processing mention: " e (by decide)) rfl i
        constructor
        · rw [hm2, hs]; exact hm1
        · intro p
          simp only [List.mem_append, not_or]
          exact ⟨by rw [ht]; exact hg1 p, hg2 p⟩

theorem passCatch_preserves (env : MPEnv) (st : ProcState) (tr : List MPEvent)
    (att : List String) (e : String) (i : String) :
    mentionsWithId ((passCatch env st tr att e).state).currentStatus i =
      mentionsWithId st.currentStatus i ∧
    ((passCatch env st tr att e).attempted = att) ∧
    ∀ p, MPEvent.genCall i p ∉ tr → MPEvent.genCall i p ∉ (passCatch env st tr att e).trace := by
  unfold passCatch
  split
  next st1 tr1 heq1 =>
    obtain ⟨hm1, hg1⟩ := updateStatus_fact_none env st _ st1 tr1 none heq1
      (truthy_lit_append "Error: " e (by decide)) rfl i
    refine ⟨hm1, rfl, ?_⟩
    intro p hp
    simp only [List.mem_append, not_or]
    exact ⟨hp, hg1 p⟩
  next st1 tr1 e2 heq1 =>
    obtain ⟨hm1, hg1⟩ := updateStatus_fact_none env st _ st1 tr1 (some e2) heq1
      (truthy_lit_append "Error: " e (by decide)) rfl i
    refine ⟨hm1, rfl, ?_⟩
    intro p hp
    simp only [List.mem_append, not_or]
    exact ⟨hp, hg1 p⟩

theorem processLoop_preserves (env : MPEnv) (i : String) :
    ∀ (ms : List TwitterMention) (st : ProcState) (tr : List MPEvent) (att : List String),
      showsResolved st.currentStatus i = true →
      (∀ p, MPEvent.genCall i p ∉ tr) →
      mentionsWithId ((processLoop env st tr att ms).state).currentStatus i =
        mentionsWithId st.currentStatus i ∧
      ∀ p, MPEvent.genCall i p ∉ (processLoop env st tr att ms).trace := by
  intro ms
  induction ms with
  | nil =>
    intro st tr att hres hg
    exact ⟨rfl, hg⟩
  | cons m rest ih =>
    intro st tr att hres hg
    by_cases hcur : (st.lastProcessedMentionId == some m.id) = true
    · have : processLoop env st tr att (m :: rest) = processLoop env st tr att rest := by
        simp [processLoop, hcur]
      rw [this]
      exact ih st tr att hres hg
    · have hred : processLoop env st tr att (m :: rest) =
          match reviewMention env st m with
          | (st1, tr1, some e) => passCatch env st1 (tr ++ tr1) (att ++ [m.id]) e
          | (st1, tr1, none) =>
            processLoop env { st1 with lastProcessedMentionId := some m.id }
              (tr ++ tr1) (att ++ [m.id]) rest := by
        simp only [processLoop, hcur, if_false]
        simp
      obtain ⟨hmr, hgr⟩ := reviewMention_preserves env st m i hres
      rw [hred]
      split
      next st1 tr1 e hrev =>
        have hs : st1 = (reviewMention env st m).1 := by rw [hrev]
        have ht : tr1 = (reviewMention env st m).2.1 := by rw [hrev]
        obtain ⟨hpc, _hpa, hpt⟩ := passCatch_preserves env st1 (tr ++ tr1) (att ++ [m.id]) e i
        constructor
        · rw [hpc, hs]; exact hmr
        · intro p
          refine hpt p ?_
          simp only [List.mem_append, not_or]
          exact ⟨hg p, by rw [ht]; exact hgr p⟩
      next st1 tr1 hrev =>
        have hs : st1 = (reviewMention env st m).1 := by rw [hrev]
        have ht : tr1 = (reviewMention env st m).2.1 := by rw [hrev]
        have hm1 : mentionsWithId st1.currentStatus i = mentionsWithId st.currentStatus i := by
          rw [hs]; exact hmr
        have hres1 : showsResolved ({ st1 with lastProcessedMentionId := some m.id } :
            ProcState).currentStatus i = true := by
          rw [show ({ st1 with lastProcessedMentionId := some m.id } :
            ProcState).currentStatus = st1.currentStatus from rfl]
          rw [showsResolved_congr st1.currentStatus st.currentStatus i hm1]
          exact hres
        have hg1 : ∀ p, MPEvent.genCall i p ∉ tr ++ tr1 := by
          intro p
          simp only [List.mem_append, not_or]
          exact ⟨hg p, by rw [ht]; exact hgr p⟩
        obtain ⟨hml, hgl⟩ := ih { st1 with lastProcessedMentionId := some m.id }
          (tr ++ tr1) (att ++ [m.id]) hres1 hg1
        constructor
        · rw [hml]
          exact hm1
        · exact hgl

/-- C1: idempotency of the poll pass.  If the cached snapshot already
shows an entry with this mention id having both `response` and `thoughts`
populated, then a direct `reviewMention` call returns at the skip check
(state unchanged, no events at all), and a whole poll pass issues zero
text-generation calls for that mention id and leaves its snapshot entries
exactly as they were. -/
theorem c1_resolved_mention_skipped (env : MPEnv) (st : ProcState) (m : TwitterMention)
    (hres : showsResolved st.currentStatus m.id = true) :
    reviewMention env st m = (st, [], none) ∧
    mentionsWithId ((processMentionsOnce env st).state).currentStatus m.id =
      mentionsWithId st.currentStatus m.id ∧
    ∀ p, MPEvent.genCall m.id p ∉ (processMentionsOnce env st).trace := by
  refine ⟨reviewMention_skip env st m hres, ?_⟩
  unfold processMentionsOnce
  split
  next st1 tr1 e heq1 =>
    obtain ⟨hm1, hg1⟩ := updateStatus_fact_none env st _ st1 tr1 (some e) heq1 rfl rfl m.id
    obtain ⟨hpc, _hpa, hpt⟩ := passCatch_preserves env st1 tr1 [] e m.id
    constructor
    · rw [hpc]; exact hm1
    · intro p
      exact hpt p (hg1 p)
  next st1 tr1 heq1 =>
    obtain ⟨hm1, hg1⟩ := updateStatus_fact_none env st _ st1 tr1 none heq1 rfl rfl m.id
    split
    next e hgl =>
      obtain ⟨hpc, _hpa, hpt⟩ := passCatch_preserves env st1 tr1 [] e m.id
      constructor
      · rw [hpc]; exact hm1
      · intro p
        exact hpt p (hg1 p)
    next ms hgl =>
      have hres1 : showsResolved st1.currentStatus m.id = true := by
        rw [showsResolved_congr st1.currentStatus st.currentStatus m.id hm1]
        exact hres
      obtain ⟨hml, hgl2⟩ := processLoop_preserves env m.id ms st1 tr1 [] hres1 hg1
      constructor
      · rw [hml]; exact hm1
      · exact hgl2

theorem c1_resolved_mention_skipped_witness :
    showsResolved exSt.currentStatus exM3.id = true ∧
    reviewMention envOk exSt exM3 = (exSt, [], none) :=
  ⟨by decide, (c1_resolved_mention_skipped envOk exSt exM3 (by decide)).1⟩


/-- Under a failing generation service the try block of `reviewMention`
never reaches the resolution update, so every snapshot entry is kept. -/
theorem reviewMentionTry_genFail (env : MPEnv) (st : ProcState) (m : TwitterMention)
    (e : String) (hgen : ∀ pr, env.generateText pr = .error e) (i : String) :
    mentionsWithId ((reviewMentionTry env st m).1).currentStatus i =
      mentionsWithId st.currentStatus i := by
  unfold reviewMentionTry
  split
  · rfl
  · rfl
  · split
    next st1 tr1 e1 heq1 =>
      exact (updateStatus_fact_none env st _ st1 tr1 (some e1) heq1
        (truthy_processing m) rfl i).1
    next st1 tr1 heq1 =>
      have hm1 := (updateStatus_fact_none env st _ st1 tr1 none heq1
        (truthy_processing m) rfl i).1
      split
      · exact hm1
      next msg hmsg =>
        split
        · exact hm1
        next bio0 hbio =>
          split
          · exact hm1
          next thoughts hth =>
            rw [hgen (thoughtsPromptOf bio0 msg)] at hth
            simp at hth

theorem reviewMention_genFail_preserves (env : MPEnv) (st : ProcState) (m : TwitterMention)
    (e : String) (hgen : ∀ pr, env.generateText pr = .error e) (i : String) :
    mentionsWithId ((reviewMention env st m).1).currentStatus i =
      mentionsWithId st.currentStatus i := by
  unfold reviewMention
  split
  next st1 tr htry =>
    rw [show st1 = (reviewMentionTry env st m).1 from by rw [htry]]
    exact reviewMentionTry_genFail env st m e hgen i
  next st1 tr e1 htry =>
    split
    next st2 tr2 heq2 =>
      have h2 := (updateStatus_fact_none env st1 _ st2 tr2 none heq2
        (truthy_lit_append "Error processing mention: " e1 (by decide)) rfl i).1
      rw [h2, show st1 = (reviewMentionTry env st m).1 from by rw [htry]]
      exact reviewMentionTry_genFail env st m e hgen i
    next st2 tr2 e2 heq2 =>
      have h2 := (updateStatus_fact_none env st1 _ st2 tr2 (some e2) heq2
        (truthy_lit_append "Error processing mention: " e1 (by decide)) rfl i).1
      rw [h2, show st1 = (reviewMentionTry env st m).1 from by rw [htry]]
      exact reviewMentionTry_genFail env st m e hgen i

/-- C2 as frozen is false on the code: a failing `reviewMention` rethrows
and the for-loop sits inside the pass try-block, so the pass aborts.  On
the concrete snapshot with the unresolved mentions m1, m2, m3 and a
generation service that always fails, the pass attempts only m1 (one
generation call in total), ends in the retry path, and never marks m2
resolved — refuting "continues processing the remaining mentions of the
same pass". -/
theorem c2_pass_aborts_counterexample :
    (processMentionsOnce envGenFail exSt).attempted = ["m1"] ∧
    ("m2" ∈ (processMentionsOnce envGenFail exSt).attempted) = False ∧
    (processMentionsOnce envGenFail exSt).outcome = PassOutcome.retry "boom" ∧
    (processMentionsOnce envGenFail exSt).trace.countP isGenCall = 1 ∧
    showsResolved (processMentionsOnce envGenFail exSt).state.currentStatus "m1" = false ∧
    showsResolved (processMentionsOnce envGenFail exSt).state.currentStatus "m2" = false := by
  decide

/-- C2 amended: when `reviewMention` fails for a mention, the processor
logs the error and posts an error-task status, but the failure aborts the
pass: the failing mention is the last one attempted, the mentions after it
are not attempted in this pass, and the pass ends in the catch path
(`retryDelay` sleep, or a crash when even the error update fails) instead
of completing. -/
theorem c2_amended_failure_aborts_pass (env : MPEnv) (st stx : ProcState)
    (tr trx : List MPEvent) (att : List String) (m : TwitterMention)
    (rest : List TwitterMention) (e : String)
    (hcur : (st.lastProcessedMentionId == some m.id) = false)
    (hfail : reviewMention env st m = (stx, trx, some e)) :
    processLoop env st tr att (m :: rest) = passCatch env stx (tr ++ trx) (att ++ [m.id]) e ∧
    (processLoop env st tr att (m :: rest)).attempted = att ++ [m.id] ∧
    (processLoop env st tr att (m :: rest)).outcome ≠ PassOutcome.ok ∧
    (∀ e2, (∀ pr, env.generateText pr = Except.error e2) →
      ∀ i, mentionsWithId ((processLoop env st tr att (m :: rest)).state).currentStatus i =
        mentionsWithId st.currentStatus i) := by
  have hred : processLoop env st tr att (m :: rest) =
      passCatch env stx (tr ++ trx) (att ++ [m.id]) e := by
    simp [processLoop, hcur, hfail]
  refine ⟨hred, ?_, ?_, ?_⟩
  · rw [hred]
    exact (passCatch_preserves env stx (tr ++ trx) (att ++ [m.id]) e "x").2.1
  · rw [hred]
    unfold passCatch
    split <;> simp
  · intro e2 hg i
    rw [hred]
    rw [(passCatch_preserves env stx (tr ++ trx) (att ++ [m.id]) e i).1]
    rw [show stx = (reviewMention env st m).1 from by rw [hfail]]
    exact reviewMention_genFail_preserves env st m e2 hg i

theorem c2_amended_failure_aborts_pass_witness :
    ((exSt.lastProcessedMentionId == some exM1.id) = false) ∧
    (processLoop envGenFail exSt [] [] [exM1, exM2]).attempted = [] ++ [exM1.id] := by
  refine ⟨by decide, ?_⟩
  have h := c2_amended_failure_aborts_pass envGenFail exSt
    (reviewMention envGenFail exSt exM1).1 [] (reviewMention envGenFail exSt exM1).2.1 []
    exM1 [exM2] "boom" (by decide) (by decide)
  exact h.2.1

/-- The trace of a merge-branch `updateStatus`. -/
theorem updateStatus_trace (env : MPEnv) (st : ProcState) (u : StatusUpdate)
    (st1 : ProcState) (tr1 : List MPEvent) (e1 : Option String)
    (heq : updateStatus env st u = (st1, tr1, e1))
    (hu : truthyS u.currentTask = true) :
    tr1 = [.statusPost (mergeStatus st.currentStatus u st.clock)] := by
  rw [← (updateStatus_merge env st u hu).2, heq]

theorem reviewMentionTry_memCreate (env : MPEnv) (st : ProcState) (m : TwitterMention) :
    ∀ mem, MPEvent.memCreate mem ∈ (reviewMentionTry env st m).2.1 →
      mem.id = m.id ∧ mem.agentId = env.agentId := by
  unfold reviewMentionTry
  split
  · simp
  · simp
  · split
    next st1 tr1 e heq1 =>
      intro mem hmem
      rw [updateStatus_trace env st _ st1 tr1 (some e) heq1 (truthy_processing m)] at hmem
      simp at hmem
    next st1 tr1 heq1 =>
      have htr1 := updateStatus_trace env st _ st1 tr1 none heq1 (truthy_processing m)
      split
      · intro mem hmem
        rw [htr1] at hmem
        simp at hmem
      next msg hmsg =>
        split
        · intro mem hmem
          rw [htr1] at hmem
          simp at hmem
        next bio0 hbio =>
          split
          · intro mem hmem
            rw [htr1] at hmem
            simp at hmem
          next thoughts hth =>
            split
            · intro mem hmem
              rw [htr1] at hmem
              simp at hmem
            next resp hresp =>
              split
              · intro mem hmem
                rw [htr1] at hmem
                simp at hmem
                subst hmem
                exact ⟨rfl, rfl⟩
              next u7 hmem7 =>
                split
                next hcs7 =>
                  intro mem hmem
                  rw [htr1] at hmem
                  simp at hmem
                  subst hmem
                  exact ⟨rfl, rfl⟩
                next cs hcs =>
                  split
                  next hrp8 =>
                    intro mem hmem
                    rw [htr1] at hmem
                    simp at hmem
                    subst hmem
                    exact ⟨rfl, rfl⟩
                  next rprof hrp8 =>
                    split
                    next st2 tr2 e2 heq2 =>
                      intro mem hmem
                      rw [htr1, updateStatus_trace env st1 _ st2 tr2 e2 heq2 rfl] at hmem
                      simp at hmem
                      subst hmem
                      exact ⟨rfl, rfl⟩

theorem reviewMention_memCreate (env : MPEnv) (st : ProcState) (m : TwitterMention) :
    ∀ mem, MPEvent.memCreate mem ∈ (reviewMention env st m).2.1 →
      mem.id = m.id ∧ mem.agentId = env.agentId := by
  unfold reviewMention
  split
  next st1 tr htry =>
    intro mem hmem
    refine reviewMentionTry_memCreate env st m mem ?_
    rw [htry]
    exact hmem
  next st1 tr e htry =>
    split
    next st2 tr2 heq2 =>
      intro mem hmem
      rw [updateStatus_trace env st1 _ st2 tr2 none heq2
        (truthy_lit_append "Error processing mention: " e (by decide))] at hmem
      simp only [List.mem_append] at hmem
      rcases hmem with hmem | hmem
      · refine reviewMentionTry_memCreate env st m mem ?_
        rw [htry]
        exact hmem
      · simp at hmem
    next st2 tr2 e2 heq2 =>
      intro mem hmem
      rw [updateStatus_trace env st1 _ st2 tr2 (some e2) heq2
        (truthy_lit_append "Error processing mention: " e (by decide))] at hmem
      simp only [List.mem_append] at hmem
      rcases hmem with hmem | hmem
      · refine reviewMentionTry_memCreate env st m mem ?_
        rw [htry]
        exact hmem
      · simp at hmem

/-- Reduction of one unvisited step of the walk. -/
theorem processThread_step (env : WalkEnv) (gap : Nat) (p : TruthStatus) (s : WalkState)
    (hvis : p.id ∉ s.visited) :
    processThread env (gap + 1) (some p) s =
      match p.in_reply_to_id with
      | none =>
        { visited := p.id :: s.visited, thread := p :: s.thread
          created :=
            if env.storeHas (stringToUuid (p.id ++ "-" ++ env.agentId)) ||
                s.created.any (fun m => m.id == stringToUuid (p.id ++ "-" ++ env.agentId)) then
              s.created
            else s.created ++ [mkWalkMemory env.agentId p] }
      | some _ =>
        match env.fetchAncestor p with
        | .error _ =>
          { visited := p.id :: s.visited, thread := p :: s.thread
            created :=
              if env.storeHas (stringToUuid (p.id ++ "-" ++ env.agentId)) ||
                  s.created.any (fun m => m.id == stringToUuid (p.id ++ "-" ++ env.agentId)) then
                s.created
              else s.created ++ [mkWalkMemory env.agentId p] }
        | .ok parent =>
          processThread env gap parent
            { visited := p.id :: s.visited, thread := p :: s.thread
              created :=
                if env.storeHas (stringToUuid (p.id ++ "-" ++ env.agentId)) ||
                    s.created.any (fun m => m.id == stringToUuid (p.id ++ "-" ++ env.agentId)) then
                  s.created
                else s.created ++ [mkWalkMemory env.agentId p] } := by
  simp [processThread, hvis]

theorem processThread_thread_mem (env : WalkEnv) (gap : Nat) (po : Option TruthStatus)
    (s : WalkState) : ∀ x ∈ s.thread, x ∈ (processThread env gap po s).thread := by
  intro x hx
  rw [(processThread_spec env gap po s).1]
  exact List.mem_append_right _ hx

theorem processThread_created (env : WalkEnv) :
    ∀ (gap : Nat) (po : Option TruthStatus) (s : WalkState),
      (∀ mem ∈ (processThread env gap po s).created,
        mem ∈ s.created ∨
          ∃ p ∈ (processThread env gap po s).thread, mem = mkWalkMemory env.agentId p) ∧
      ((s.created.map (fun mem => mem.id)).Nodup →
        (∀ mem ∈ s.created, env.storeHas mem.id = false) →
        ((processThread env gap po s).created.map (fun mem => mem.id)).Nodup ∧
        ∀ mem ∈ (processThread env gap po s).created, env.storeHas mem.id = false) := by
  intro gap
  induction gap with
  | zero =>
    intro po s
    cases po with
    | none => exact ⟨fun mem h => Or.inl h, fun hn hs => ⟨hn, hs⟩⟩
    | some p => exact ⟨fun mem h => Or.inl h, fun hn hs => ⟨hn, hs⟩⟩
  | succ gap ih =>
    intro po s
    cases po with
    | none => exact ⟨fun mem h => Or.inl h, fun hn hs => ⟨hn, hs⟩⟩
    | some p =>
      by_cases hvis : p.id ∈ s.visited
      · have hred : processThread env (gap + 1) (some p) s = s := by
          simp [processThread, hvis]
        rw [hred]
        exact ⟨fun mem h => Or.inl h, fun hn hs => ⟨hn, hs⟩⟩
      · rw [processThread_step env gap p s hvis]
        by_cases hguard : (env.storeHas (stringToUuid (p.id ++ "-" ++ env.agentId)) ||
            s.created.any (fun m => m.id == stringToUuid (p.id ++ "-" ++ env.agentId))) = true
        · -- record already present: nothing is created at this step
          simp only [hguard, if_true]
          cases hrep : p.in_reply_to_id with
          | none => exact ⟨fun mem h => Or.inl h, fun hn hs => ⟨hn, hs⟩⟩
          | some q =>
            cases hf : env.fetchAncestor p with
            | error u => exact ⟨fun mem h => Or.inl h, fun hn hs => ⟨hn, hs⟩⟩
            | ok parent =>
              obtain ⟨ihs, ihn⟩ := ih parent
                { visited := p.id :: s.visited, thread := p :: s.thread, created := s.created }
              constructor
              · intro mem hmem
                rcases ihs mem hmem with h | ⟨q2, hq2, hq2e⟩
                · exact Or.inl h
                · exact Or.inr ⟨q2, hq2, hq2e⟩
              · intro hn hs
                exact ihn hn hs
        · simp only [hguard, if_false]
          have hstore : env.storeHas (stringToUuid (p.id ++ "-" ++ env.agentId)) = false := by
            rcases Bool.or_eq_false_iff.mp (Bool.eq_false_iff.mpr hguard) with ⟨ha, _⟩
            exact ha
          have hany : s.created.any
              (fun m => m.id == stringToUuid (p.id ++ "-" ++ env.agentId)) = false := by
            rcases Bool.or_eq_false_iff.mp (Bool.eq_false_iff.mpr hguard) with ⟨_, hb⟩
            exact hb
          have hnotin : ∀ mem ∈ s.created,
              mem.id ≠ stringToUuid (p.id ++ "-" ++ env.agentId) := by
            intro mem hmem
            have := List.any_eq_false.mp hany mem hmem
            simpa using this
          have hnew : ∀ s2 : WalkState,
              s2.created = s.created ++ [mkWalkMemory env.agentId p] →
              ((s.created.map (fun mem => mem.id)).Nodup →
                (∀ mem ∈ s.created, env.storeHas mem.id = false) →
                (s2.created.map (fun mem => mem.id)).Nodup ∧
                ∀ mem ∈ s2.created, env.storeHas mem.id = false) := by
            intro s2 hc hn hs
            rw [hc]
            constructor
            · simp only [List.map_append, List.map_cons, List.map_nil]
              rw [List.nodup_append]
              refine ⟨hn, by simp, ?_⟩
              intro a ha
              simp only [List.mem_singleton]
              intro hb
              obtain ⟨mem, hmem, hmemid⟩ := List.mem_map.mp ha
              subst hb
              exact hnotin mem hmem (by rw [hmemid]; rfl)
            · intro mem hmem
              rcases List.mem_append.mp hmem with h | h
              · exact hs mem h
              · rw [List.mem_singleton.mp h]
                exact hstore
          cases hrep : p.in_reply_to_id with
          | none =>
            constructor
            · intro mem hmem
              rcases List.mem_append.mp hmem with h | h
              · exact Or.inl h
              · refine Or.inr ⟨p, by simp, ?_⟩
                rw [List.mem_singleton.mp h]
            · exact hnew ⟨p.id :: s.visited, p :: s.thread,
                s.created ++ [mkWalkMemory env.agentId p]⟩ rfl
          | some q =>
            cases hf : env.fetchAncestor p with
            | error u =>
              constructor
              · intro mem hmem
                rcases List.mem_append.mp hmem with h | h
                · exact Or.inl h
                · refine Or.inr ⟨p, by simp, ?_⟩
                  rw [List.mem_singleton.mp h]
              · exact hnew ⟨p.id :: s.visited, p :: s.thread,
                  s.created ++ [mkWalkMemory env.agentId p]⟩ rfl
            | ok parent =>
              obtain ⟨ihs, ihn⟩ := ih parent
                { visited := p.id :: s.visited, thread := p :: s.thread
                  created := s.created ++ [mkWalkMemory env.agentId p] }
              constructor
              · intro mem hmem
                rcases ihs mem hmem with h | ⟨q2, hq2, hq2e⟩
                · rcases List.mem_append.mp h with h2 | h2
                  · exact Or.inl h2
                  · refine Or.inr ⟨p, ?_, by rw [List.mem_singleton.mp h2]⟩
                    refine processThread_thread_mem env gap parent _ p ?_
                    simp
                · exact Or.inr ⟨q2, hq2, hq2e⟩
              · intro hn hs
                obtain ⟨hn2, hs2⟩ := hnew ⟨p.id :: s.visited, p :: s.thread,
                  s.created ++ [mkWalkMemory env.agentId p]⟩ rfl hn hs
                exact ihn hn2 hs2

/-- C3 amended.  In the thread walk, every created record is derived from
a visited post by `stringToUuid(postId + "-" + agentId)` (hence
deterministic), creation is preceded by a store lookup so that no record
is created twice and none is created when the store already holds its id.
In `reviewMention`, by contrast, the stored record carries the mention id
itself as its id — deterministic, but not combined with the agent id —
and no lookup guards the write. -/
theorem c3_amended_memory_identity :
    (∀ (env : WalkEnv) (post : TruthStatus) (maxD : Nat),
      (∀ mem ∈ (buildConversationThread env post maxD).created,
        ∃ p ∈ (buildConversationThread env post maxD).thread,
          mem = mkWalkMemory env.agentId p) ∧
      (((buildConversationThread env post maxD).created.map (fun mem => mem.id)).Nodup) ∧
      (∀ mem ∈ (buildConversationThread env post maxD).created,
        env.storeHas mem.id = false)) ∧
    (∀ (env : MPEnv) (st : ProcState) (m : TwitterMention) (mem : TwitterMemory),
      MPEvent.memCreate mem ∈ (reviewMention env st m).2.1 →
        mem.id = m.id ∧ mem.agentId = env.agentId) := by
  constructor
  · intro env post maxD
    obtain ⟨hsub, hinv⟩ := processThread_created env maxD (some post)
      { visited := [], thread := [], created := [] }
    obtain ⟨hnd, hstore⟩ := hinv (by simp) (by simp)
    refine ⟨?_, hnd, hstore⟩
    intro mem hmem
    rcases hsub mem hmem with h | h
    · simp at h
    · exact h
  · exact reviewMention_memCreate

theorem mem_of_memCreates :
    ∀ (tr : List MPEvent) (mem : TwitterMemory),
      mem ∈ memCreates tr → MPEvent.memCreate mem ∈ tr := by
  intro tr mem h
  induction tr with
  | nil => simp [memCreates] at h
  | cons ev rest ih =>
    cases ev with
    | memCreate m2 =>
      rw [show memCreates (MPEvent.memCreate m2 :: rest) = m2 :: memCreates rest from rfl] at h
      rcases List.mem_cons.mp h with h | h
      · rw [h]
        exact List.mem_cons_self _ _
      · exact List.mem_cons_of_mem _ (ih h)
    | genCall a b =>
      rw [show memCreates (MPEvent.genCall a b :: rest) = memCreates rest from rfl] at h
      exact List.mem_cons_of_mem _ (ih h)
    | statusPost a =>
      rw [show memCreates (MPEvent.statusPost a :: rest) = memCreates rest from rfl] at h
      exact List.mem_cons_of_mem _ (ih h)
    | statusFetch =>
      rw [show memCreates (MPEvent.statusFetch :: rest) = memCreates rest from rfl] at h
      exact List.mem_cons_of_mem _ (ih h)

theorem c3_amended_memory_identity_witness :
    memCreates (reviewMention envOk exSt exM1).2.1 =
      [builtMemoryOf envOk exM1 "t1" "gen" "gen"] ∧
    ((builtMemoryOf envOk exM1 "t1" "gen" "gen").id = exM1.id ∧
     (builtMemoryOf envOk exM1 "t1" "gen" "gen").agentId = envOk.agentId) := by
  have hm : memCreates (reviewMention envOk exSt exM1).2.1 =
      [builtMemoryOf envOk exM1 "t1" "gen" "gen"] := by decide
  refine ⟨hm, c3_amended_memory_identity.2 envOk exSt exM1 _ ?_⟩
  refine mem_of_memCreates _ _ ?_
  rw [hm]
  exact List.mem_cons_self _ _

/-- C3 as frozen is false on `reviewMention` (one of its two cited code
sites): with a store that already holds a record with id "m1"
(`envStoreFull`), reviewing the unresolved mention m1 still hands a record
with id "m1" to `createMemory` — creation is not preceded by any lookup —
and the created id is the bare mention id: running the same review under a
different agent id produces the identical record id, so the id is not
derived from the agent id. -/
theorem c3_memory_identity_counterexample :
    memCreateIds (reviewMention envStoreFull exSt exM1).2.1 = ["m1"] ∧
    envStoreFull.storeHas "m1" = true ∧
    memCreateIds (reviewMention envOkAgentB exSt exM1).2.1 = ["m1"] ∧
    envOk.agentId ≠ envOkAgentB.agentId := by
  decide


/-- Full reduction of a merge-branch `updateStatus` whose POST succeeds. -/
theorem updateStatus_merge_full (env : MPEnv) (st : ProcState) (u : StatusUpdate)
    (hu : truthyS u.currentTask = true)
    (hp : env.postStatus (mergeStatus st.currentStatus u st.clock) = .ok ()) :
    updateStatus env st u =
      ({ st with currentStatus := some (mergeStatus st.currentStatus u st.clock)
                 clock := st.clock + 1 },
       [.statusPost (mergeStatus st.currentStatus u st.clock)], none) := by
  simp [updateStatus, hu, hp]

/-- C4 amended.  The merge branch of `updateStatus` performs a shallow
spread of the patch into the cached snapshot: a field present in the patch
replaces the cached field wholesale — in particular a `recentProfile`
patch replaces the whole profile including its mentions array, with no
element-wise by-id merge at this layer (the by-id rewrite is done by the
caller when it builds the patch) — fields absent from the patch are kept,
and `lastUpdate` is stamped from the clock; across two sequential merges
the fields set by the first and not the second survive, and the two
stamps are strictly increasing. -/
theorem c4_amended_status_merge (env : MPEnv) (st : ProcState) (u1 u2 : StatusUpdate)
    (h1 : truthyS u1.currentTask = true) (h2 : truthyS u2.currentTask = true) :
    ((updateStatus env st u1).1).currentStatus =
      some (mergeStatus st.currentStatus u1 st.clock) ∧
    ((updateStatus env (updateStatus env st u1).1 u2).1).currentStatus =
      some (mergeStatus (some (mergeStatus st.currentStatus u1 st.clock)) u2 (st.clock + 1)) ∧
    (mergeStatus st.currentStatus u1 st.clock).recentProfile =
      (u1.recentProfile <|> st.currentStatus.bind (fun c => c.recentProfile)) ∧
    (u2.twitter = none →
      (mergeStatus (some (mergeStatus st.currentStatus u1 st.clock)) u2 (st.clock + 1)).twitter =
        (u1.twitter <|> st.currentStatus.bind (fun c => c.twitter))) ∧
    (u2.recentMemories = none →
      (mergeStatus (some (mergeStatus st.currentStatus u1 st.clock)) u2
          (st.clock + 1)).recentMemories =
        (u1.recentMemories <|> st.currentStatus.bind (fun c => c.recentMemories))) ∧
    (mergeStatus st.currentStatus u1 st.clock).lastUpdate = some st.clock ∧
    (mergeStatus (some (mergeStatus st.currentStatus u1 st.clock)) u2
        (st.clock + 1)).lastUpdate = some (st.clock + 1) ∧
    st.clock < st.clock + 1 := by
  have hu1 := updateStatus_merge env st u1 h1
  refine ⟨?_, ?_, rfl, ?_, ?_, rfl, rfl, Nat.lt_succ_self _⟩
  · rw [hu1.1]
  · rw [hu1.1]
    have hu2 := updateStatus_merge env
      { st with currentStatus := some (mergeStatus st.currentStatus u1 st.clock)
                clock := st.clock + 1 } u2 h2
    rw [hu2.1]
  · intro h
    simp [mergeStatus, h]
  · intro h
    simp [mergeStatus, h]

theorem c4_amended_status_merge_witness :
    truthyS exPatch.currentTask = true ∧
    ((updateStatus envOk exSt exPatch).1).currentStatus =
      some (mergeStatus exSt.currentStatus exPatch exSt.clock) :=
  ⟨by decide,
   (c4_amended_status_merge envOk exSt exPatch exPatch (by decide) (by decide)).1⟩

/-- C4 as frozen is false on the code: the merge does NOT deep-merge the
`mentions` array element-wise by id.  Merging a patch whose profile holds
only the updated entry m1 into a cache whose profile holds m1, m2, m3
leaves a cache with mentions `[m1 updated]` — m2 and m3 are dropped from
the cached profile — whereas the by-id deep merge the claim describes
would yield `[m1 updated, m2, m3]`. -/
theorem c4_merge_not_by_id_counterexample :
    Option.map (fun rp => rp.mentions)
      (((updateStatus envOk exSt exPatch).1).currentStatus.bind
        (fun s2 => s2.recentProfile)) = some [exM1Upd] ∧
    mergeMentionsById [exM1, exM2, exM3] [exM1Upd] = [exM1Upd, exM2, exM3] ∧
    ([exM1Upd] : List TwitterMention) ≠ [exM1Upd, exM2, exM3] := by
  decide

/-- C10 as frozen is false on the code: with a null cached snapshot, even
when every collaborator call would succeed, `reviewMention` throws while
assembling the thoughts prompt (reading `.profile` of the `twitter` field
that the first merge never put into the rebuilt cache) — BEFORE any
generation call and BEFORE any memory write, so no MemoryRecord is
created, contradicting the claimed "after the MemoryRecord has already
been created ... a memory write occurs". -/
theorem c10_null_snapshot_counterexample :
    ((reviewMention envOk exStNull exM1).2.2).isSome = true ∧
    (reviewMention envOk exStNull exM1).2.1.countP isMemCreate = 0 ∧
    (reviewMention envOk exStNull exM1).2.1.countP isGenCall = 0 ∧
    memCreates (reviewMention envOk exStNull exM1).2.1 = [] := by
  decide

/-- C10 amended: invoked on a null cached snapshot, the resolved-mention
skip check never fires (the optional chain yields a falsy undefined); the
first merge rebuilds the cache from the patch alone, so the thoughts
prompt then throws a TypeError reading `.profile` of the missing `twitter`
field — before any generation call or memory write — the call rethrows
after posting an error-task status, and the mention is never marked
resolved. -/
theorem c10_amended_null_snapshot (env : MPEnv) (st : ProcState) (m : TwitterMention)
    (hnull : st.currentStatus = none)
    (hpost : ∀ s2, env.postStatus s2 = .ok ())
    (msg : String) (hcompose : env.composeState (tempMemoryOf env m) = .ok msg) :
    resolvedCheck st.currentStatus m.id = Except.ok false ∧
    ((reviewMention env st m).2.2).isSome = true ∧
    (reviewMention env st m).2.1.countP isMemCreate = 0 ∧
    (reviewMention env st m).2.1.countP isGenCall = 0 ∧
    showsResolved ((reviewMention env st m).1).currentStatus m.id = false := by
  have hrc : resolvedCheck st.currentStatus m.id = .ok false := by
    rw [hnull]
    rfl
  have h1 := updateStatus_merge_full env st
    { emptyUpdate with
        currentTask := some ("Processing mention from " ++ m.text.take 50 ++ "...") }
    (truthy_processing m) (hpost _)
  have htw : (mergeStatus st.currentStatus
      { emptyUpdate with
          currentTask := some ("Processing mention from " ++ m.text.take 50 ++ "...") }
      st.clock).twitter = none := by
    rw [hnull]
    rfl
  have hbio : bioInterp (some (mergeStatus st.currentStatus
      { emptyUpdate with
          currentTask := some ("Processing mention from " ++ m.text.take 50 ++ "...") }
      st.clock)) = .error "TypeError: cannot read profile of undefined" := by
    simp only [bioInterp]
    rw [htw]
  have htry : reviewMentionTry env st m =
      ({ st with
          currentStatus := some (mergeStatus st.currentStatus
            { emptyUpdate with
                currentTask := some ("Processing mention from " ++ m.text.take 50 ++ "...") }
            st.clock)
          clock := st.clock + 1 },
       [.statusPost (mergeStatus st.currentStatus
          { emptyUpdate with
              currentTask := some ("Processing mention from " ++ m.text.take 50 ++ "...") }
          st.clock)],
       some "TypeError: cannot read profile of undefined") := by
    simp only [reviewMentionTry, hrc, h1, hcompose, hbio]
  have h2 := updateStatus_merge_full env
    { st with
        currentStatus := some (mergeStatus st.currentStatus
          { emptyUpdate with
              currentTask := some ("Processing mention from " ++ m.text.take 50 ++ "...") }
          st.clock)
        clock := st.clock + 1 }
    { emptyUpdate with
        currentTask := some ("Error processing mention: " ++
          "TypeError: cannot read profile of undefined") }
    (truthy_lit_append "Error processing mention: " _ (by decide)) (hpost _)
  have hrev : reviewMention env st m =
      ({ st with
          currentStatus := some (mergeStatus
            (some (mergeStatus st.currentStatus
              { emptyUpdate with
                  currentTask := some ("Processing mention from " ++ m.text.take 50 ++ "...") }
              st.clock))
            { emptyUpdate with
                currentTask := some ("Error processing mention: " ++
                  "TypeError: cannot read profile of undefined") }
            (st.clock + 1))
          clock := st.clock + 1 + 1 },
       [.statusPost (mergeStatus st.currentStatus
          { emptyUpdate with
              currentTask := some ("Processing mention from " ++ m.text.take 50 ++ "...") }
          st.clock),
        .statusPost (mergeStatus
          (some (mergeStatus st.currentStatus
            { emptyUpdate with
                currentTask := some ("Processing mention from " ++ m.text.take 50 ++ "...") }
            st.clock))
          { emptyUpdate with
              currentTask := some ("Error processing mention: " ++
                "TypeError: cannot read profile of undefined") }
          (st.clock + 1))],
       some "TypeError: cannot read profile of undefined") := by
    simp only [reviewMention, htry, h2]
    rfl
  have hrp2 : (mergeStatus
      (some (mergeStatus st.currentStatus
        { emptyUpdate with
            currentTask := some ("Processing mention from " ++ m.text.take 50 ++ "...") }
        st.clock))
      { emptyUpdate with
          currentTask := some ("Error processing mention: " ++
            "TypeError: cannot read profile of undefined") }
      (st.clock + 1)).recentProfile = none := by
    rw [hnull]
    rfl
  refine ⟨hrc, ?_, ?_, ?_, ?_⟩
  · rw [hrev]
    rfl
  · rw [hrev]
    rfl
  · rw [hrev]
    rfl
  · have hx : mentionsWithId ((reviewMention env st m).1).currentStatus m.id =
        mentionsWithId st.currentStatus m.id := by
      rw [hrev]
      exact (mentionsWithId_merge_none _ _ _ _ rfl).trans
        (mentionsWithId_merge_none st.currentStatus _ st.clock m.id rfl)
    rw [showsResolved_congr _ _ _ hx, hnull]
    rfl

theorem c10_amended_null_snapshot_witness :
    exStNull.currentStatus = none ∧
    envOk.composeState (tempMemoryOf envOk exM1) = Except.ok "t1" ∧
    ((reviewMention envOk exStNull exM1).2.2).isSome = true := by
  refine ⟨rfl, by decide, ?_⟩
  exact (c10_amended_null_snapshot envOk exStNull exM1 rfl (fun s2 => rfl) "t1"
    (by decide)).2.1


end Aiora
